import Mathlib

/-!
Verification development for the kqueue backend of an I/O readiness
multiplexer (`src/sys/unix/kqueue.rs`).

The embedding models:
* the readiness bitmask (`Ready` with the unix extensions `error` / `hup`)
  as a record of four booleans, bitwise OR becoming field-wise OR;
* raw kernel events (`libc::kevent`) as the record `Kevent`;
* `Events::coalesce` as a fold over the raw event list, carrying the
  output sequence, the token-to-index association list, and the wake flag;
* `Selector::register` / `deregister` with the kernel interaction
  abstracted by the per-change result codes (`data` fields) the kernel
  writes back under `EV_RECEIPT`;
* `Selector::select` with the kernel wait abstracted by a function from
  the (clamped) timespec to either an error or a raw event list;
* the `NEXT_ID` counter, with `usize` wrap-around made explicit.
-/

namespace Mio

/-! ### Platform constants (libc values on the kqueue platforms) -/

def EVFILT_READ : Int := -1

def EVFILT_WRITE : Int := -2

def EV_ADD : Nat := 0x1

def EV_DELETE : Nat := 0x2

def EV_ONESHOT : Nat := 0x10

def EV_CLEAR : Nat := 0x20

def EV_RECEIPT : Nat := 0x40

def EV_ERROR : Nat := 0x4000

def EV_EOF : Nat := 0x8000

def ENOENT : Int := 2

def EPIPE : Int := 32

/-! ### The portable value types (`Ready`, `Event`) -/

/-- The readiness bitmask: `readable` and `writable` from portable `Ready`,
`error` and `hup` from `UnixReady`.  Bitwise OR on the mask is field-wise
boolean OR here. -/
structure Ready where
  isReadable : Bool
  isWritable : Bool
  isError : Bool
  isHup : Bool
deriving DecidableEq, Repr

def Ready.empty : Ready := ⟨false, false, false, false⟩

def Ready.union (a b : Ready) : Ready :=
  ⟨a.isReadable || b.isReadable, a.isWritable || b.isWritable,
   a.isError || b.isError, a.isHup || b.isHup⟩

def Ready.readable : Ready := ⟨true, false, false, false⟩

def Ready.writable : Ready := ⟨false, true, false, false⟩

def UnixReady.error : Ready := ⟨false, false, true, false⟩

def UnixReady.hup : Ready := ⟨false, false, false, true⟩

/-- An output event: `(kind, token)`.  Tokens are the `usize` payload
round-tripped through the kernel's `udata` slot, modelled as `Nat`. -/
structure Event where
  kind : Ready
  token : Nat
deriving DecidableEq, Repr

def Event.new (readiness : Ready) (token : Nat) : Event :=
  ⟨readiness, token⟩

/-- A raw kernel event record (`libc::kevent`).  `filter` is a signed
short, `flags` and `fflags` unsigned masks, `data` the per-change result
slot (signed), `udata` the opaque token slot. -/
structure Kevent where
  ident : Nat
  filter : Int
  flags : Nat
  fflags : Nat
  data : Int
  udata : Nat
deriving DecidableEq, Repr

/-! ### The Events buffer and coalescing -/

/-- The `Events` buffer: raw scratch list, output sequence, and the
token-to-output-index map (an association list standing for the
`HashMap<Token, usize>`). -/
structure Events where
  sys_events : List Kevent
  events : List Event
  event_map : List (Nat × Nat)
deriving DecidableEq, Repr

/-- Working state of the coalescing loop. -/
structure CState where
  events : List Event
  event_map : List (Nat × Nat)
  ret : Bool
deriving DecidableEq, Repr

/-- Models `event::kind_mut(&mut self.events[idx]).insert(r)`: union `r` into the
kind of the event at `idx` (out-of-range indices never occur in runs of
the code; they are a no-op here). -/
def updKind (evs : List Event) (idx : Nat) (r : Ready) : List Event :=
  match evs[idx]? with
  | some ev => evs.set idx { ev with kind := ev.kind.union r }
  | none => evs

/-- The flag/filter translation applied to slot `idx` for one raw event:
lines 247-265 of `kqueue.rs`. -/
def applyFlags (e : Kevent) (idx : Nat) (events : List Event) : List Event :=
  let events := if e.flags &&& EV_ERROR ≠ 0 then updKind events idx UnixReady.error else events
  let events :=
    if e.filter = EVFILT_READ then updKind events idx Ready.readable
    else if e.filter = EVFILT_WRITE then updKind events idx Ready.writable
    else events
  if e.flags &&& EV_EOF ≠ 0 then
    let events2 := updKind events idx UnixReady.hup
    if e.fflags ≠ 0 then updKind events2 idx UnixReady.error else events2
  else events

/-- One iteration of the `for e in self.sys_events` loop of
`Events::coalesce` (lines 227-266). -/
def coalesceStep (awakener : Nat) (s : CState) (e : Kevent) : CState :=
  let token := e.udata
  let len := s.events.length
  if token = awakener then
    { s with ret := true }
  else
    let idx := (s.event_map.lookup token).getD len
    let event_map :=
      if (s.event_map.lookup token).isSome then s.event_map
      else s.event_map ++ [(token, len)]
    let events := if idx = len then s.events ++ [Event.new Ready.empty token] else s.events
    { s with events := applyFlags e idx events, event_map := event_map }

/-- The state after the coalescing loop has consumed `l`, starting from
the cleared state (`self.events.clear(); self.event_map.clear()`;
`ret = false`). -/
def runState (awakener : Nat) (l : List Kevent) : CState :=
  l.foldl (coalesceStep awakener) { events := [], event_map := [], ret := false }

/-- Models `Events::coalesce`: clear the output sequence and the map, fold over
the raw events, return whether the awakener token was seen. -/
def Events.coalesce (self : Events) (awakener : Nat) : Events × Bool :=
  let s := runState awakener self.sys_events
  ({ self with events := s.events, event_map := s.event_map }, s.ret)

def Events.push_event (self : Events) (event : Event) : Events :=
  { self with events := self.events ++ [event] }

def Events.len (self : Events) : Nat := self.events.length

def Events.get (self : Events) (idx : Nat) : Option Event := self.events[idx]?

/-! ### Selector: registration -/

/-- The per-change acceptance check of `Selector::register`
(lines 96-129): `data` is the result code the kernel wrote into the
change, `filter` the change's filter, `origFlags` the `EV_ADD` /
`EV_DELETE` flag this direction requested.  Returns the error to
propagate, or `none` when the change is accepted (silently or through a
documented suppression). -/
def checkChange (filter : Int) (data : Int) (origFlags : Nat) : Option Int :=
  if data = 0 then none
  else if data = EPIPE ∧ filter = EVFILT_WRITE then none
  else if data = ENOENT ∧ origFlags &&& EV_DELETE ≠ 0 then none
  else some data

/-- Models `Selector::register` with the kernel call abstracted by the result
codes `rd` (written into the `EVFILT_READ` change) and `wd` (into the
`EVFILT_WRITE` change).  `interests` decides whether each direction's
change requests `EV_ADD` or `EV_DELETE`; the shared `EV_CLEAR` /
`EV_ONESHOT` / `EV_RECEIPT` flags only feed the kernel call and so are
absorbed into `rd` / `wd`. -/
def Selector.register (interests : Ready) (rd wd : Int) : Except Int Unit :=
  let r := if interests.isReadable then EV_ADD else EV_DELETE
  let w := if interests.isWritable then EV_ADD else EV_DELETE
  match checkChange EVFILT_READ rd r with
  | some err => .error err
  | none =>
    match checkChange EVFILT_WRITE wd w with
    | some err => .error err
    | none => .ok ()

/-- Models `Selector::reregister`, which just calls `register`. -/
def Selector.reregister (interests : Ready) (rd wd : Int) : Except Int Unit :=
  Selector.register interests rd wd

/-- Models `Selector::deregister` (lines 140-163) with the kernel call abstracted
by the result codes `rd` / `wd` of the two `EV_DELETE` changes.  Note the
loop propagates `changes[0].data` (i.e. `rd`), not the failing change's
own code. -/
def Selector.deregister (rd wd : Int) : Except Int Unit :=
  if rd = ENOENT ∧ wd = ENOENT then .error rd
  else if rd ≠ 0 ∧ rd ≠ ENOENT then .error rd
  else if wd ≠ 0 ∧ wd ≠ ENOENT then .error rd
  else .ok ()

/-! ### Selector: creation and the NEXT_ID counter -/

/-- The `usize` type wraps at this bound (64-bit platforms). -/
def USIZE_LIMIT : Nat := 2 ^ 64

/-- The value `NEXT_ID.fetch_add(1, Relaxed) + 1` computed from the counter's
current value; this is both the id handed out and (since `fetch_add`
wraps) the counter's next value. -/
def selectorNewId (next_id : Nat) : Nat := (next_id + 1) % USIZE_LIMIT

/-- The `NEXT_ID` counter value after `k` calls to `Selector::new`,
starting from `ATOMIC_USIZE_INIT = 0`. -/
def nextIdAfter : Nat → Nat
  | 0 => 0
  | k + 1 => selectorNewId (nextIdAfter k)

/-- The id assigned by the `k`-th call to `Selector::new` (1-indexed). -/
def selectorId (k : Nat) : Nat := selectorNewId (nextIdAfter (k - 1))

/-! ### Selector: select -/

/-- A duration: whole seconds (`as_secs`, a `u64` value) and the
sub-second nanoseconds (`subsec_nanos`, a `u32` value). -/
structure Duration where
  secs : Nat
  nanos : Nat
deriving DecidableEq, Repr

structure Timespec where
  tv_sec : Int
  tv_nsec : Int
deriving DecidableEq, Repr

/-- The value `time_t::max_value() as u64` for the 64-bit `time_t`. -/
def time_t_max_u64 : Nat := 2 ^ 63 - 1

/-- The cast `n as time_t`: two's-complement reinterpretation of the low 64 bits. -/
def toTimeT (n : Nat) : Int :=
  if n % 2 ^ 64 < 2 ^ 63 then Int.ofNat (n % 2 ^ 64)
  else Int.ofNat (n % 2 ^ 64) - 2 ^ 64

/-- The timespec `select` hands to the kernel (lines 58-64):
`tv_sec = cmp::min(to.as_secs(), time_t::max_value() as u64) as time_t`. -/
def selectTimespec (timeout : Option Duration) : Option Timespec :=
  timeout.map fun d =>
    { tv_sec := toTimeT (min d.secs time_t_max_u64), tv_nsec := Int.ofNat d.nanos }

/-- Models `Selector::select` with the kernel wait abstracted by `kernel`: given
the timespec (or `none` for a null pointer / indefinite block), the
kernel either fails or yields the raw events written into the scratch
buffer (whose length the code then sets to the returned count). -/
def Selector.select (evts : Events) (awakener : Nat) (timeout : Option Duration)
    (kernel : Option Timespec → Except Int (List Kevent)) : Except Int (Events × Bool) :=
  match kernel (selectTimespec timeout) with
  | .error e => .error e
  | .ok sys =>
    let evts := { evts with sys_events := sys }
    .ok (evts.coalesce awakener)

/-! ### Derived descriptions used by the theorems -/

/-- The readiness contribution of a single raw event, as the coalescing
loop inserts it (error flag, filter direction, EOF handling), associated
exactly as the three conditional insertions compose. -/
def contrib (e : Kevent) : Ready :=
  Ready.union
    (Ready.union
      (if e.flags &&& EV_ERROR ≠ 0 then UnixReady.error else Ready.empty)
      (if e.filter = EVFILT_READ then Ready.readable
       else if e.filter = EVFILT_WRITE then Ready.writable
       else Ready.empty))
    (if e.flags &&& EV_EOF ≠ 0 then
      Ready.union UnixReady.hup (if e.fflags ≠ 0 then UnixReady.error else Ready.empty)
     else Ready.empty)

/-- Union of the contributions of all raw events in `l` carrying token
`t`, in delivery order. -/
def accumContrib (l : List Kevent) (t : Nat) : Ready :=
  l.foldl (fun r e => if e.udata = t then r.union (contrib e) else r) Ready.empty

/-- Modelled from the spec (section 4.2, step d): the readiness the spec
assigns to one raw event, used to compare the code's translation against
the spec's words. -/
def specTranslate (e : Kevent) : Ready :=
  { isReadable := decide (e.filter = EVFILT_READ),
    isWritable := decide (e.filter = EVFILT_WRITE),
    isError := (decide (e.flags &&& EV_ERROR ≠ 0)) ||
      ((decide (e.flags &&& EV_EOF ≠ 0)) && (decide (e.fflags ≠ 0))),
    isHup := decide (e.flags &&& EV_EOF ≠ 0) }

/-! ### Ready algebra -/

theorem Ready.union_empty (r : Ready) : r.union Ready.empty = r := by
  cases r; simp [Ready.union, Ready.empty]

theorem Ready.empty_union (r : Ready) : Ready.empty.union r = r := by
  cases r; simp [Ready.union, Ready.empty]

theorem Ready.union_assoc (a b c : Ready) :
    (a.union b).union c = a.union (b.union c) := by
  cases a; cases b; cases c; simp [Ready.union, Bool.or_assoc]

/-! ### List helpers -/

theorem set_self_of_getElem? (l : List α) (i : Nat) (a : α) (h : l[i]? = some a) :
    l.set i a = l := by
  induction l generalizing i with
  | nil => rfl
  | cons x xs ih =>
    cases i with
    | zero => simp_all
    | succ n =>
      simp only [List.getElem?_cons_succ] at h
      simp [List.set, ih n h]

theorem set_concat (l : List α) (x y : α) :
    (l ++ [x]).set l.length y = l ++ [y] := by
  induction l with
  | nil => rfl
  | cons a as ih => simp [List.set, ih]

theorem lookup_append (t : Nat) (m₁ m₂ : List (Nat × Nat)) :
    (m₁ ++ m₂).lookup t =
      match m₁.lookup t with
      | some v => some v
      | none => m₂.lookup t := by
  induction m₁ with
  | nil => simp [List.lookup]
  | cons p ps ih =>
    obtain ⟨k, v⟩ := p
    cases htk : (t == k) <;> simp [List.lookup, htk, ih]

/-! ### updKind lemmas -/

theorem updKind_length (evs : List Event) (i : Nat) (r : Ready) :
    (updKind evs i r).length = evs.length := by
  unfold updKind
  cases h : evs[i]? <;> simp

theorem updKind_getElem_ne (evs : List Event) (i : Nat) (r : Ready) (j : Nat)
    (h : j ≠ i) : (updKind evs i r)[j]? = evs[j]? := by
  unfold updKind
  cases hg : evs[i]? with
  | none => rfl
  | some ev => exact List.getElem?_set_ne h.symm

theorem updKind_getElem_self (evs : List Event) (i : Nat) (r : Ready) (ev : Event)
    (h : evs[i]? = some ev) :
    (updKind evs i r)[i]? = some { ev with kind := ev.kind.union r } := by
  have hi : i < evs.length := by
    rcases List.getElem?_eq_some_iff.mp h with ⟨hlt, _⟩
    exact hlt
  unfold updKind
  rw [h]
  exact List.getElem?_set_self hi

theorem updKind_oob (evs : List Event) (i : Nat) (r : Ready)
    (h : evs[i]? = none) : updKind evs i r = evs := by
  unfold updKind; rw [h]

theorem updKind_empty (evs : List Event) (i : Nat) :
    updKind evs i Ready.empty = evs := by
  unfold updKind
  cases h : evs[i]? with
  | none => rfl
  | some ev =>
    simp only [Ready.union_empty]
    exact set_self_of_getElem? _ _ _ h

theorem updKind_eq_set (evs : List Event) (i : Nat) (r : Ready) (ev : Event)
    (h : evs[i]? = some ev) :
    updKind evs i r = evs.set i { ev with kind := ev.kind.union r } := by
  unfold updKind
  rw [h]

theorem updKind_updKind (evs : List Event) (i : Nat) (r₁ r₂ : Ready) :
    updKind (updKind evs i r₁) i r₂ = updKind evs i (r₁.union r₂) := by
  cases h : evs[i]? with
  | none => rw [updKind_oob _ _ _ h, updKind_oob _ _ _ h, updKind_oob _ _ _ h]
  | some ev =>
    have h₁ : (updKind evs i r₁)[i]? = some { ev with kind := ev.kind.union r₁ } :=
      updKind_getElem_self _ _ _ _ h
    rw [updKind_eq_set _ _ r₂ _ h₁, updKind_eq_set _ _ r₁ _ h, updKind_eq_set _ _ _ _ h,
      List.set_set, Ready.union_assoc]

theorem updKind_ite (c : Prop) [Decidable c] (evs : List Event) (i : Nat) (r : Ready) :
    (if c then updKind evs i r else evs) = updKind evs i (if c then r else Ready.empty) := by
  by_cases h : c <;> simp [h, updKind_empty]

theorem updKind_snoc (evs : List Event) (x : Event) (r : Ready) :
    updKind (evs ++ [x]) evs.length r = evs ++ [{ x with kind := x.kind.union r }] := by
  rw [updKind_eq_set _ _ r x (List.getElem?_concat_length _ _), set_concat]

theorem updKind_map_token (evs : List Event) (i : Nat) (r : Ready) :
    (updKind evs i r).map Event.token = evs.map Event.token := by
  unfold updKind
  cases h : evs[i]? with
  | none => rfl
  | some ev =>
    rw [List.map_set]
    refine set_self_of_getElem? _ _ _ ?_
    rw [List.getElem?_map, h]
    rfl

/-! ### applyFlags and step characterizations -/

theorem applyFlags_eq (e : Kevent) (idx : Nat) (evs : List Event) :
    applyFlags e idx evs = updKind evs idx (contrib e) := by
  simp only [applyFlags, contrib]
  by_cases hr : e.filter = EVFILT_READ
  · rw [if_pos hr, if_pos hr]
    by_cases herr : e.flags &&& EV_ERROR ≠ 0 <;>
    by_cases he : e.flags &&& EV_EOF ≠ 0 <;>
    by_cases hf : e.fflags ≠ 0 <;>
      simp [herr, he, hf, updKind_updKind, updKind_empty,
        Ready.union_assoc, Ready.union_empty, Ready.empty_union]
  · rw [if_neg hr, if_neg hr]
    by_cases hw : e.filter = EVFILT_WRITE
    · rw [if_pos hw, if_pos hw]
      by_cases herr : e.flags &&& EV_ERROR ≠ 0 <;>
      by_cases he : e.flags &&& EV_EOF ≠ 0 <;>
      by_cases hf : e.fflags ≠ 0 <;>
        simp [herr, he, hf, updKind_updKind, updKind_empty,
          Ready.union_assoc, Ready.union_empty, Ready.empty_union]
    · rw [if_neg hw, if_neg hw]
      by_cases herr : e.flags &&& EV_ERROR ≠ 0 <;>
      by_cases he : e.flags &&& EV_EOF ≠ 0 <;>
      by_cases hf : e.fflags ≠ 0 <;>
        simp [herr, he, hf, updKind_updKind, updKind_empty,
          Ready.union_assoc, Ready.union_empty, Ready.empty_union]

theorem coalesceStep_awakener (aw : Nat) (s : CState) (e : Kevent)
    (h : e.udata = aw) : coalesceStep aw s e = { s with ret := true } := by
  simp only [coalesceStep]
  rw [if_pos h]

theorem coalesceStep_some (aw : Nat) (s : CState) (e : Kevent) (i : Nat)
    (he : e.udata ≠ aw) (hlk : s.event_map.lookup e.udata = some i)
    (hi : i < s.events.length) :
    coalesceStep aw s e = { s with events := updKind s.events i (contrib e) } := by
  simp only [coalesceStep]
  rw [if_neg he]
  simp only [hlk, Option.getD_some, Option.isSome_some, if_true]
  rw [if_neg (Nat.ne_of_lt hi), applyFlags_eq]

theorem coalesceStep_none (aw : Nat) (s : CState) (e : Kevent)
    (he : e.udata ≠ aw) (hlk : s.event_map.lookup e.udata = none) :
    coalesceStep aw s e =
      { events := s.events ++ [{ kind := contrib e, token := e.udata }],
        event_map := s.event_map ++ [(e.udata, s.events.length)],
        ret := s.ret } := by
  simp only [coalesceStep]
  rw [if_neg he]
  simp only [hlk, Option.getD_none, Option.isSome_none, Bool.false_eq_true, if_false, if_true,
    eq_self_iff_true]
  rw [applyFlags_eq, updKind_snoc]
  simp [Event.new, Ready.empty_union]

theorem runState_nil (aw : Nat) :
    runState aw [] = { events := [], event_map := [], ret := false } := rfl

theorem runState_snoc (aw : Nat) (l : List Kevent) (e : Kevent) :
    runState aw (l ++ [e]) = coalesceStep aw (runState aw l) e := by
  unfold runState
  rw [List.foldl_append]
  rfl

/-! ### accumContrib lemmas -/

theorem accumContrib_snoc (l : List Kevent) (e : Kevent) (t : Nat) :
    accumContrib (l ++ [e]) t =
      if e.udata = t then (accumContrib l t).union (contrib e) else accumContrib l t := by
  unfold accumContrib
  rw [List.foldl_append]
  rfl

theorem accumContrib_foldl_skip (l : List Kevent) (t : Nat) (r : Ready)
    (h : ∀ e ∈ l, e.udata ≠ t) :
    l.foldl (fun r e => if e.udata = t then r.union (contrib e) else r) r = r := by
  induction l generalizing r with
  | nil => rfl
  | cons e es ih =>
    simp only [List.foldl_cons]
    rw [if_neg (h e (List.mem_cons_self e es))]
    exact ih _ fun e' he' => h e' (List.mem_cons_of_mem _ he')

theorem accumContrib_empty_of (l : List Kevent) (t : Nat)
    (h : ∀ e ∈ l, e.udata ≠ t) : accumContrib l t = Ready.empty :=
  accumContrib_foldl_skip l t Ready.empty h

/-! ### The coalescing invariant -/

/-- The token of the output event stored at index `i`, if any. -/
def tokenAt (evs : List Event) (i : Nat) : Option Nat :=
  Option.map Event.token evs[i]?

theorem getElem?_snoc (l : List α) (x : α) (i : Nat) :
    (l ++ [x])[i]? = if i < l.length then l[i]? else if i = l.length then some x else none := by
  by_cases h1 : i < l.length
  · rw [if_pos h1]
    exact List.getElem?_append_left h1
  · rw [if_neg h1]
    by_cases h2 : i = l.length
    · subst h2
      rw [if_pos rfl]
      exact List.getElem?_concat_length l x
    · rw [if_neg h2]
      refine List.getElem?_eq_none ?_
      simp only [List.length_append, List.length_singleton]
      omega

theorem tokenAt_updKind (evs : List Event) (i : Nat) (r : Ready) (j : Nat) :
    tokenAt (updKind evs i r) j = tokenAt evs j := by
  by_cases hj : j = i
  · subst hj
    cases h : evs[j]? with
    | none => rw [updKind_oob _ _ _ h]
    | some ev =>
      unfold tokenAt
      rw [updKind_getElem_self _ _ _ _ h, h]
      rfl
  · unfold tokenAt
    rw [updKind_getElem_ne _ _ _ _ hj]

theorem tokenAt_snoc (evs : List Event) (x : Event) (i : Nat) :
    tokenAt (evs ++ [x]) i =
      if i < evs.length then tokenAt evs i
      else if i = evs.length then some x.token else none := by
  unfold tokenAt
  rw [getElem?_snoc]
  by_cases h1 : i < evs.length
  · simp [h1]
  · by_cases h2 : i = evs.length <;> simp [h1, h2]

theorem tokenAt_lt (evs : List Event) (i : Nat) (t : Nat)
    (h : tokenAt evs i = some t) : i < evs.length := by
  unfold tokenAt at h
  cases hg : evs[i]? with
  | none => rw [hg] at h; cases h
  | some ev => exact (List.getElem?_eq_some_iff.mp hg).fst

/-- Everything the coalescing loop maintains about its state after
consuming the raw list `l` (`aw` is the awakener token). -/
structure CoalesceInv (aw : Nat) (l : List Kevent) (s : CState) : Prop where
  ret_eq : s.ret = l.any (fun e => e.udata == aw)
  tok_ne : ∀ i, tokenAt s.events i ≠ some aw
  lookup_iff : ∀ t i, s.event_map.lookup t = some i ↔ tokenAt s.events i = some t
  kind_eq : ∀ (i : Nat) (ev : Event), s.events[i]? = some ev → ev.kind = accumContrib l ev.token
  mem_tok : ∀ e ∈ l, e.udata ≠ aw → ∃ i, tokenAt s.events i = some e.udata

theorem runState_inv (aw : Nat) (l : List Kevent) : CoalesceInv aw l (runState aw l) := by
  induction l using List.reverseRecOn with
  | nil =>
    refine ⟨rfl, ?_, ?_, ?_, ?_⟩
    · intro i
      simp [runState_nil, tokenAt]
    · intro t i
      simp [runState_nil, tokenAt, List.lookup]
    · intro i ev h
      simp [runState_nil] at h
    · intro e he hne
      simp at he
  | append_singleton l e ih =>
    rw [runState_snoc]
    by_cases haw : e.udata = aw
    · rw [coalesceStep_awakener _ _ _ haw]
      refine ⟨?_, ih.tok_ne, ih.lookup_iff, ?_, ?_⟩
      · show true = (l ++ [e]).any (fun e => e.udata == aw)
        rw [List.any_append]
        simp [haw]
      · intro i ev h
        have hk := ih.kind_eq i ev h
        have hne : ev.token ≠ aw := by
          intro hc
          refine ih.tok_ne i ?_
          unfold tokenAt
          rw [h]
          simp [hc]
        rw [accumContrib_snoc, if_neg (fun hc => hne (haw ▸ hc.symm)), hk]
      · intro e' he' hne
        rcases List.mem_append.mp he' with h | h
        · exact ih.mem_tok e' h hne
        · rw [List.mem_singleton] at h
          subst h
          exact absurd haw hne
    · cases hlk : (runState aw l).event_map.lookup e.udata with
      | some i =>
        have hti : tokenAt (runState aw l).events i = some e.udata :=
          (ih.lookup_iff e.udata i).mp hlk
        have hi : i < (runState aw l).events.length := tokenAt_lt _ _ _ hti
        rcases Option.map_eq_some'.mp hti with ⟨ev₀, hev₀, htok₀⟩
        rw [coalesceStep_some aw _ e i haw hlk hi]
        refine ⟨?_, ?_, ?_, ?_, ?_⟩
        · show (runState aw l).ret = (l ++ [e]).any (fun e => e.udata == aw)
          rw [List.any_append, ih.ret_eq]
          simp [haw]
        · intro j
          show tokenAt (updKind (runState aw l).events i (contrib e)) j ≠ some aw
          rw [tokenAt_updKind]
          exact ih.tok_ne j
        · intro t j
          show _ ↔ tokenAt (updKind (runState aw l).events i (contrib e)) j = some t
          rw [tokenAt_updKind]
          exact ih.lookup_iff t j
        · intro j ev h
          by_cases hj : j = i
          · subst hj
            rw [updKind_getElem_self _ _ _ _ hev₀] at h
            have hev : ev = { ev₀ with kind := ev₀.kind.union (contrib e) } :=
              (Option.some.inj h).symm
            subst hev
            show ev₀.kind.union (contrib e) = accumContrib (l ++ [e]) ev₀.token
            rw [htok₀, accumContrib_snoc, if_pos rfl]
            have hk := ih.kind_eq j ev₀ hev₀
            rw [hk, htok₀]
          · rw [updKind_getElem_ne _ _ _ _ hj] at h
            have hk := ih.kind_eq j ev h
            rw [accumContrib_snoc, if_neg, hk]
            intro hEq
            have htj : tokenAt (runState aw l).events j = some e.udata := by
              unfold tokenAt
              rw [h]
              simp [hEq]
            have hlj := (ih.lookup_iff e.udata j).mpr htj
            rw [hlk] at hlj
            exact hj (Option.some.inj hlj).symm
        · intro e' he' hne
          rcases List.mem_append.mp he' with hmem | hmem
          · rcases ih.mem_tok e' hmem hne with ⟨j, hj⟩
            refine ⟨j, ?_⟩
            rw [tokenAt_updKind]
            exact hj
          · rw [List.mem_singleton] at hmem
            subst hmem
            refine ⟨i, ?_⟩
            rw [tokenAt_updKind]
            exact hti
      | none =>
        rw [coalesceStep_none aw _ e haw hlk]
        refine ⟨?_, ?_, ?_, ?_, ?_⟩
        · show (runState aw l).ret = (l ++ [e]).any (fun e => e.udata == aw)
          rw [List.any_append, ih.ret_eq]
          simp [haw]
        · intro j
          show tokenAt ((runState aw l).events ++ [{ kind := contrib e, token := e.udata }]) j ≠
            some aw
          rw [tokenAt_snoc]
          by_cases h1 : j < (runState aw l).events.length
          · rw [if_pos h1]
            exact ih.tok_ne j
          · rw [if_neg h1]
            by_cases h2 : j = (runState aw l).events.length
            · rw [if_pos h2]
              intro hc
              exact haw (Option.some.inj hc)
            · rw [if_neg h2]
              simp
        · intro t j
          show List.lookup t
              ((runState aw l).event_map ++ [(e.udata, (runState aw l).events.length)]) = some j ↔
            tokenAt ((runState aw l).events ++ [{ kind := contrib e, token := e.udata }]) j = some t
          rw [lookup_append, tokenAt_snoc]
          cases hm : List.lookup t (runState aw l).event_map with
          | some v =>
            show some v = some j ↔ _
            have htv := (ih.lookup_iff t v).mp hm
            have hv : v < (runState aw l).events.length := tokenAt_lt _ _ _ htv
            constructor
            · intro hh
              have hvj : v = j := Option.some.inj hh
              subst hvj
              rw [if_pos hv]
              exact htv
            · intro hh
              by_cases h1 : j < (runState aw l).events.length
              · rw [if_pos h1] at hh
                have hlj := (ih.lookup_iff t j).mpr hh
                rw [hm] at hlj
                exact hlj
              · rw [if_neg h1] at hh
                by_cases h2 : j = (runState aw l).events.length
                · rw [if_pos h2] at hh
                  have ht : e.udata = t := Option.some.inj hh
                  rw [← ht] at hm
                  rw [hlk] at hm
                  cases hm
                · rw [if_neg h2] at hh
                  cases hh
          | none =>
            show List.lookup t [(e.udata, (runState aw l).events.length)] = some j ↔ _
            by_cases ht : t = e.udata
            · subst ht
              constructor
              · intro hh
                simp [List.lookup] at hh
                subst hh
                rw [if_neg (lt_irrefl _), if_pos rfl]
              · intro hh
                by_cases h1 : j < (runState aw l).events.length
                · rw [if_pos h1] at hh
                  have hlj := (ih.lookup_iff e.udata j).mpr hh
                  rw [hlk] at hlj
                  cases hlj
                · rw [if_neg h1] at hh
                  by_cases h2 : j = (runState aw l).events.length
                  · subst h2
                    simp [List.lookup]
                  · rw [if_neg h2] at hh
                    cases hh
            · have hb : (t == e.udata) = false := beq_eq_false_iff_ne.mpr ht
              constructor
              · intro hh
                simp [List.lookup, hb] at hh
              · intro hh
                by_cases h1 : j < (runState aw l).events.length
                · rw [if_pos h1] at hh
                  have hlj := (ih.lookup_iff t j).mpr hh
                  rw [hm] at hlj
                  cases hlj
                · rw [if_neg h1] at hh
                  by_cases h2 : j = (runState aw l).events.length
                  · rw [if_pos h2] at hh
                    exact absurd (Option.some.inj hh).symm ht
                  · rw [if_neg h2] at hh
                    cases hh
        · intro j ev h
          rw [getElem?_snoc] at h
          by_cases h1 : j < (runState aw l).events.length
          · rw [if_pos h1] at h
            have hk := ih.kind_eq j ev h
            rw [accumContrib_snoc, if_neg, hk]
            intro hEq
            have htj : tokenAt (runState aw l).events j = some e.udata := by
              unfold tokenAt
              rw [h]
              simp [hEq]
            have hlj := (ih.lookup_iff e.udata j).mpr htj
            rw [hlk] at hlj
            cases hlj
          · rw [if_neg h1] at h
            by_cases h2 : j = (runState aw l).events.length
            · rw [if_pos h2] at h
              have hev : ev = { kind := contrib e, token := e.udata } :=
                (Option.some.inj h).symm
              subst hev
              show contrib e = accumContrib (l ++ [e]) e.udata
              rw [accumContrib_snoc, if_pos rfl, accumContrib_empty_of, Ready.empty_union]
              intro e' he' hEq
              have hne' : e'.udata ≠ aw := by
                rw [hEq]
                exact haw
              rcases ih.mem_tok e' he' hne' with ⟨j', hj'⟩
              rw [hEq] at hj'
              have hlj := (ih.lookup_iff e.udata j').mpr hj'
              rw [hlk] at hlj
              cases hlj
            · rw [if_neg h2] at h
              cases h
        · intro e' he' hne
          rcases List.mem_append.mp he' with hmem | hmem
          · rcases ih.mem_tok e' hmem hne with ⟨j, hj⟩
            have hjl : j < (runState aw l).events.length := tokenAt_lt _ _ _ hj
            refine ⟨j, ?_⟩
            rw [tokenAt_snoc, if_pos hjl]
            exact hj
          · rw [List.mem_singleton] at hmem
            subst hmem
            refine ⟨(runState aw l).events.length, ?_⟩
            rw [tokenAt_snoc, if_neg (lt_irrefl _), if_pos rfl]

/-- Corollary: the tokens of the coalesced output are pairwise distinct. -/
theorem runState_tokens_nodup (aw : Nat) (l : List Kevent) :
    ((runState aw l).events.map Event.token).Nodup := by
  rw [List.nodup_iff_getElem?_ne_getElem?]
  intro i j hij hj hc
  rw [List.length_map] at hj
  rcases List.getElem?_eq_some_iff.mpr ⟨hj, rfl⟩ with hev
  have htj : tokenAt (runState aw l).events j = some ((runState aw l).events[j].token) := by
    unfold tokenAt
    rw [hev]
    rfl
  have hti : tokenAt (runState aw l).events i = some ((runState aw l).events[j].token) := by
    unfold tokenAt
    rw [← List.getElem?_map, hc, List.getElem?_map, hev]
    rfl
  have h1 := ((runState_inv aw l).lookup_iff _ i).mpr hti
  have h2 := ((runState_inv aw l).lookup_iff _ j).mpr htj
  rw [h1] at h2
  exact absurd (Option.some.inj h2) (Nat.ne_of_lt hij)

/-- The step's effect on the output sequence and the map does not depend
on the wake flag already recorded in the state. -/
theorem coalesceStep_congr (aw : Nat) (s₁ s₂ : CState) (e : Kevent)
    (hev : s₁.events = s₂.events) (hm : s₁.event_map = s₂.event_map) :
    (coalesceStep aw s₁ e).events = (coalesceStep aw s₂ e).events ∧
    (coalesceStep aw s₁ e).event_map = (coalesceStep aw s₂ e).event_map := by
  simp only [coalesceStep]
  by_cases haw : e.udata = aw
  · rw [if_pos haw, if_pos haw]
    exact ⟨hev, hm⟩
  · rw [if_neg haw, if_neg haw, hev, hm]
    exact ⟨rfl, rfl⟩

/-- Wake-token raw events leave the output sequence and the map exactly
as if they had not been delivered at all. -/
theorem runState_filter_wake (aw : Nat) (l : List Kevent) :
    (runState aw (l.filter (fun e => !(e.udata == aw)))).events = (runState aw l).events ∧
    (runState aw (l.filter (fun e => !(e.udata == aw)))).event_map =
      (runState aw l).event_map := by
  induction l using List.reverseRecOn with
  | nil => exact ⟨rfl, rfl⟩
  | append_singleton l e ih =>
    rw [List.filter_append]
    by_cases haw : e.udata = aw
    · have hf : List.filter (fun e => !(e.udata == aw)) [e] = [] := by
        simp [List.filter, haw]
      rw [hf, List.append_nil, runState_snoc, coalesceStep_awakener _ _ _ haw]
      exact ih
    · have hb : (!(e.udata == aw)) = true := by simp [haw]
      have hf : List.filter (fun e => !(e.udata == aw)) [e] = [e] := by
        simp [List.filter, hb]
      rw [hf, runState_snoc, runState_snoc]
      exact coalesceStep_congr aw _ _ e ih.1 ih.2

/-- The `NEXT_ID` counter after `k` creations is `k` modulo the `usize`
wrap bound. -/
theorem nextIdAfter_eq (k : Nat) : nextIdAfter k = k % USIZE_LIMIT := by
  induction k with
  | zero => rfl
  | succ n ih =>
    show selectorNewId (nextIdAfter n) = (n + 1) % USIZE_LIMIT
    rw [ih]
    unfold selectorNewId
    rw [Nat.mod_add_mod]

/-- Evaluates `checkChange` on the read-direction change: the only suppression is
`ENOENT` when the direction requested `EV_DELETE`. -/
theorem checkChange_read (rd : Int) (b : Bool) :
    checkChange EVFILT_READ rd (if b then EV_ADD else EV_DELETE) =
      (if rd ≠ 0 ∧ ¬(rd = ENOENT ∧ b = false) then some rd else none) := by
  cases b <;> by_cases h1 : rd = 0 <;> by_cases h2 : rd = ENOENT <;>
    simp_all [checkChange, ENOENT, EPIPE, EV_ADD, EV_DELETE, EVFILT_READ, EVFILT_WRITE]

/-- Evaluates `checkChange` on the write-direction change: `EPIPE` is swallowed,
and `ENOENT` when the direction requested `EV_DELETE`. -/
theorem checkChange_write (wd : Int) (b : Bool) :
    checkChange EVFILT_WRITE wd (if b then EV_ADD else EV_DELETE) =
      (if wd ≠ 0 ∧ ¬wd = EPIPE ∧ ¬(wd = ENOENT ∧ b = false) then some wd else none) := by
  cases b <;> by_cases h1 : wd = 0 <;> by_cases h3 : wd = EPIPE <;> by_cases h2 : wd = ENOENT <;>
    simp_all [checkChange, ENOENT, EPIPE, EV_ADD, EV_DELETE, EVFILT_WRITE]

/-! ### The claims -/

/-- C1: within one coalescing pass the output has at most one `Event` per
distinct non-wake token (the token list is duplicate-free), the readiness
of each output `Event` is the bitwise OR of the contributions of all raw
events carrying its token, and in particular one read-direction plus one
write-direction raw event for the same token yield exactly one output
`Event` whose readiness is the union of both. -/
theorem coalesce_one_event_per_token_union
    (aw t fd : Nat) (pe : List Event) (pm : List (Nat × Nat)) (l : List Kevent) (ev : Event)
    (ht : t ≠ aw)
    (hev : ev ∈ (Events.coalesce ⟨l, pe, pm⟩ aw).1.events) :
    ((Events.coalesce ⟨l, pe, pm⟩ aw).1.events.map Event.token).Nodup ∧
    ev.kind = accumContrib l ev.token ∧
    (Events.coalesce
        ⟨[⟨fd, EVFILT_READ, 0, 0, 0, t⟩, ⟨fd, EVFILT_WRITE, 0, 0, 0, t⟩], pe, pm⟩ aw).1.events =
      [{ kind := Ready.readable.union Ready.writable, token := t }] := by
  refine ⟨runState_tokens_nodup aw l, ?_, ?_⟩
  · rcases List.mem_iff_getElem?.mp hev with ⟨i, hi⟩
    exact (runState_inv aw l).kind_eq i ev hi
  · have h1 : coalesceStep aw { events := [], event_map := [], ret := false }
        (⟨fd, EVFILT_READ, 0, 0, 0, t⟩ : Kevent) =
        { events := [{ kind := contrib ⟨fd, EVFILT_READ, 0, 0, 0, t⟩, token := t }],
          event_map := [(t, 0)], ret := false } :=
      (coalesceStep_none aw { events := [], event_map := [], ret := false }
        ⟨fd, EVFILT_READ, 0, 0, 0, t⟩ ht rfl).trans rfl
    have h2 := coalesceStep_some aw
      { events := [{ kind := contrib ⟨fd, EVFILT_READ, 0, 0, 0, t⟩, token := t }],
        event_map := [(t, 0)], ret := false }
      (⟨fd, EVFILT_WRITE, 0, 0, 0, t⟩ : Kevent) 0 ht (by simp [List.lookup]) (by simp)
    show (coalesceStep aw (coalesceStep aw { events := [], event_map := [], ret := false }
        (⟨fd, EVFILT_READ, 0, 0, 0, t⟩ : Kevent)) (⟨fd, EVFILT_WRITE, 0, 0, 0, t⟩ : Kevent)).events
      = _
    rw [h1, h2]
    show updKind [{ kind := contrib ⟨fd, EVFILT_READ, 0, 0, 0, t⟩, token := t }] 0
        (contrib ⟨fd, EVFILT_WRITE, 0, 0, 0, t⟩) = _
    simp [updKind, List.set, contrib, EVFILT_READ, EVFILT_WRITE, EV_ERROR, EV_EOF,
      Ready.union, Ready.empty, Ready.readable, Ready.writable, UnixReady.error, UnixReady.hup]

theorem coalesce_one_event_per_token_union_witness :
    ((Events.coalesce ⟨[⟨3, EVFILT_READ, 0, 0, 0, 1⟩, ⟨3, EVFILT_WRITE, 0, 0, 0, 1⟩], [], []⟩
        0).1.events.map Event.token).Nodup ∧
    ({ isReadable := true, isWritable := true, isError := false, isHup := false } : Ready) =
      accumContrib [⟨3, EVFILT_READ, 0, 0, 0, 1⟩, ⟨3, EVFILT_WRITE, 0, 0, 0, 1⟩] 1 ∧
    (Events.coalesce ⟨[⟨3, EVFILT_READ, 0, 0, 0, 1⟩, ⟨3, EVFILT_WRITE, 0, 0, 0, 1⟩], [], []⟩
        0).1.events = [{ kind := Ready.readable.union Ready.writable, token := 1 }] :=
  coalesce_one_event_per_token_union 0 1 3 [] []
    [⟨3, EVFILT_READ, 0, 0, 0, 1⟩, ⟨3, EVFILT_WRITE, 0, 0, 0, 1⟩]
    { kind := { isReadable := true, isWritable := true, isError := false, isHup := false },
      token := 1 }
    (by decide) (by decide)

/-- C2: no output `Event` carries the wake token; the boolean returned by
`coalesce` is true exactly when some raw event carried the wake token; and
wake-token raw events (whatever their flags) contribute nothing to the
output sequence, which equals what the wake-free raw list would produce. -/
theorem coalesce_wake_token_policy (aw : Nat) (pe : List Event) (pm : List (Nat × Nat))
    (l : List Kevent) :
    ((Events.coalesce ⟨l, pe, pm⟩ aw).1.events.filter (fun ev => ev.token == aw)) = [] ∧
    ((Events.coalesce ⟨l, pe, pm⟩ aw).2 = true ↔ ∃ e ∈ l, e.udata = aw) ∧
    (Events.coalesce ⟨l, pe, pm⟩ aw).1.events =
      (Events.coalesce ⟨l.filter (fun e => !(e.udata == aw)), pe, pm⟩ aw).1.events := by
  refine ⟨?_, ?_, ?_⟩
  · rw [List.filter_eq_nil_iff]
    intro ev hmem hc
    have htok : ev.token = aw := by simpa using hc
    rcases List.mem_iff_getElem?.mp hmem with ⟨i, hi⟩
    have hi' : (runState aw l).events[i]? = some ev := hi
    refine (runState_inv aw l).tok_ne i ?_
    unfold tokenAt
    rw [hi']
    simp [htok]
  · have hr : (Events.coalesce ⟨l, pe, pm⟩ aw).2 = (runState aw l).ret := rfl
    rw [hr, (runState_inv aw l).ret_eq]
    simp [List.any_eq_true]
  · exact ((runState_filter_wake aw l).1).symm

/-- C3 (code bug): with the read-direction change reporting success (`0`)
and the write-direction change reporting a non-`ENOENT` error (`9`,
`EBADF`), `deregister` returns an error wrapping `changes[0].data = 0`
instead of the failing change's own code `9`. -/
theorem deregister_misreports_write_error_code :
    Selector.deregister 0 9 = Except.error 0 ∧ Selector.deregister 0 9 ≠ Except.error 9 := by
  constructor
  · rfl
  · intro h
    have h0 : (Except.error 0 : Except Int Unit) = Except.error 9 := h
    injection h0 with h1
    exact absurd h1 (by decide)

/-- C4: an `EPIPE` result on the write-direction change is swallowed
(when it is the only nonzero result, `register` succeeds); an `EPIPE`
result on the read-direction change aborts the call with that code; and
`reregister` behaves exactly as `register`. -/
theorem register_swallows_write_epipe (interests : Ready) (wd : Int) :
    Selector.register interests 0 EPIPE = Except.ok () ∧
    Selector.register interests EPIPE wd = Except.error EPIPE ∧
    Selector.reregister interests 0 EPIPE = Selector.register interests 0 EPIPE := by
  refine ⟨?_, ?_, rfl⟩
  · simp [Selector.register, checkChange, ENOENT, EPIPE, EVFILT_READ, EVFILT_WRITE]
  · simp [Selector.register, checkChange, ENOENT, EPIPE, EVFILT_READ, EVFILT_WRITE]

/-- C5: a per-change `ENOENT` is suppressed exactly when that direction's
change requested removal (the direction was absent from the interests);
`ENOENT` on an added direction, and any other unsuppressed per-change
error, aborts the call with an error wrapping that change's own code. -/
theorem register_enoent_policy (interests : Ready) (rd wd : Int) :
    Selector.register interests rd wd =
      (if rd ≠ 0 ∧ ¬(rd = ENOENT ∧ interests.isReadable = false) then Except.error rd
       else if wd ≠ 0 ∧ ¬wd = EPIPE ∧ ¬(wd = ENOENT ∧ interests.isWritable = false) then
         Except.error wd
       else Except.ok ()) := by
  simp only [Selector.register]
  rw [checkChange_read rd interests.isReadable, checkChange_write wd interests.isWritable]
  by_cases hR : rd ≠ 0 ∧ ¬(rd = ENOENT ∧ interests.isReadable = false)
  · rw [if_pos hR, if_pos hR]
  · rw [if_neg hR, if_neg hR]
    by_cases hW : wd ≠ 0 ∧ ¬wd = EPIPE ∧ ¬(wd = ENOENT ∧ interests.isWritable = false)
    · rw [if_pos hW, if_pos hW]
    · rw [if_neg hW, if_neg hW]

/-- C6: for a non-wake raw event, the coalescing translation sets
`readable` for a read-filter event, `writable` for a write-filter event,
`error` for `EV_ERROR`, `hangup` for `EV_EOF`, and `error` additionally
exactly when a nonzero `fflags` accompanies `EV_EOF` — i.e. the code's
per-event contribution coincides with the spec's translation table. -/
theorem coalesce_singleton_translation (aw : Nat) (pe : List Event) (pm : List (Nat × Nat))
    (e : Kevent) (he : e.udata ≠ aw) :
    contrib e = specTranslate e ∧
    (Events.coalesce ⟨[e], pe, pm⟩ aw).1.events =
      [{ kind := specTranslate e, token := e.udata }] := by
  have hc : contrib e = specTranslate e := by
    unfold contrib specTranslate
    by_cases herr : e.flags &&& EV_ERROR ≠ 0 <;>
    by_cases hr : e.filter = EVFILT_READ <;>
    by_cases hw : e.filter = EVFILT_WRITE <;>
    by_cases he2 : e.flags &&& EV_EOF ≠ 0 <;>
    by_cases hf : e.fflags ≠ 0 <;>
      simp_all [Ready.union, Ready.empty, Ready.readable, Ready.writable,
        UnixReady.error, UnixReady.hup, EVFILT_READ, EVFILT_WRITE]
  refine ⟨hc, ?_⟩
  show (coalesceStep aw { events := [], event_map := [], ret := false } e).events = _
  rw [coalesceStep_none aw { events := [], event_map := [], ret := false } e he rfl]
  simp [hc]

theorem coalesce_singleton_translation_witness :
    contrib ⟨3, EVFILT_READ, EV_EOF, 7, 0, 5⟩ = specTranslate ⟨3, EVFILT_READ, EV_EOF, 7, 0, 5⟩ ∧
    (Events.coalesce ⟨[⟨3, EVFILT_READ, EV_EOF, 7, 0, 5⟩], [], []⟩ 0).1.events =
      [{ kind := specTranslate ⟨3, EVFILT_READ, EV_EOF, 7, 0, 5⟩, token := 5 }] :=
  coalesce_singleton_translation 0 [] [] ⟨3, EVFILT_READ, EV_EOF, 7, 0, 5⟩ (by decide)

/-- C7: the result of a coalescing pass depends only on the raw events
and the wake token: any prior output sequence and map contents (including
events injected through `push_event`) are cleared first and do not affect
the result. -/
theorem coalesce_ignores_prior_contents (l : List Kevent) (pe₁ pe₂ : List Event)
    (pm₁ pm₂ : List (Nat × Nat)) (aw : Nat) (ev : Event) :
    Events.coalesce ⟨l, pe₁, pm₁⟩ aw = Events.coalesce ⟨l, pe₂, pm₂⟩ aw ∧
    Events.coalesce (Events.push_event ⟨l, pe₁, pm₁⟩ ev) aw =
      Events.coalesce ⟨l, pe₁, pm₁⟩ aw :=
  ⟨rfl, rfl⟩

/-- C8: with `timeout = Some d`, the timespec handed to the kernel wait
carries `tv_sec = min(d.secs, time_t::MAX)` (the cast cannot wrap), and a
kernel wait that reports zero events makes `select` return success with
an empty output sequence. -/
theorem select_timeout_clamp_and_empty (d : Duration) (evts : Events) (aw : Nat)
    (timeout : Option Duration) :
    selectTimespec (some d) =
      some { tv_sec := Int.ofNat (min d.secs (2 ^ 63 - 1)), tv_nsec := Int.ofNat d.nanos } ∧
    Selector.select evts aw timeout (fun _ => Except.ok []) =
      Except.ok ({ evts with sys_events := [], events := [], event_map := [] }, false) := by
  constructor
  · have hle : min d.secs (2 ^ 63 - 1) ≤ 2 ^ 63 - 1 := Nat.min_le_right _ _
    have hlt : min d.secs (2 ^ 63 - 1) < 2 ^ 63 := Nat.lt_of_le_of_lt hle (by norm_num)
    have h64 : min d.secs (2 ^ 63 - 1) < 2 ^ 64 := Nat.lt_trans hlt (by norm_num)
    have hX : toTimeT (min d.secs (2 ^ 63 - 1)) = Int.ofNat (min d.secs (2 ^ 63 - 1)) := by
      simp only [toTimeT]
      rw [Nat.mod_eq_of_lt h64, if_pos hlt]
    simp only [selectTimespec, time_t_max_u64, Option.map_some']
    rw [hX]
  · rfl

/-- C9 (counterexample): the id counter is a wrapping `usize`, so the
`2^64`-th creation is assigned id `0` and ids then repeat — the claim
"never 0, never reused" is false as stated for the wrapping counter. -/
theorem selector_id_wraps_to_zero :
    selectorId (2 ^ 64) = 0 ∧ selectorId 1 = selectorId (2 ^ 64 + 1) := by
  have h1 : selectorId (2 ^ 64) = ((2 ^ 64 - 1) % USIZE_LIMIT + 1) % USIZE_LIMIT := by
    rw [selectorId, nextIdAfter_eq, selectorNewId]
  have h2 : selectorId 1 = ((1 - 1) % USIZE_LIMIT + 1) % USIZE_LIMIT := by
    rw [selectorId, nextIdAfter_eq, selectorNewId]
  have h3 : selectorId (2 ^ 64 + 1) = ((2 ^ 64 + 1 - 1) % USIZE_LIMIT + 1) % USIZE_LIMIT := by
    rw [selectorId, nextIdAfter_eq, selectorNewId]
  rw [h1, h2, h3]
  norm_num [USIZE_LIMIT]

/-- C9 (amended): as long as fewer than `2^64` Selectors are created in
the process, every assigned id is nonzero and no two creations share an
id (the `k`-th creation gets id `k`). -/
theorem selector_ids_fresh_before_wrap (i j : Nat) (h1 : 1 ≤ i) (h2 : i < 2 ^ 64)
    (h3 : 1 ≤ j) (h4 : j < 2 ^ 64) (hij : i ≠ j) :
    selectorId i ≠ 0 ∧ selectorId i ≠ selectorId j := by
  have hv : ∀ k, 1 ≤ k → k < 2 ^ 64 → selectorId k = k := by
    intro k hk1 hk2
    have hk : selectorId k = ((k - 1) % USIZE_LIMIT + 1) % USIZE_LIMIT := by
      rw [selectorId, nextIdAfter_eq, selectorNewId]
    rw [hk]
    simp only [USIZE_LIMIT]
    rw [Nat.mod_eq_of_lt (Nat.lt_of_le_of_lt (Nat.sub_le k 1) hk2),
      Nat.sub_add_cancel hk1, Nat.mod_eq_of_lt hk2]
  rw [hv i h1 h2, hv j h3 h4]
  exact ⟨Nat.one_le_iff_ne_zero.mp h1, hij⟩

theorem selector_ids_fresh_before_wrap_witness :
    selectorId 1 ≠ 0 ∧ selectorId 1 ≠ selectorId 2 :=
  selector_ids_fresh_before_wrap 1 2 (by norm_num) (by norm_num) (by norm_num) (by norm_num)
    (by norm_num)

/-- C10: every non-wake raw event materializes an output `Event` for its
token, and a raw event whose filter is neither the read nor the write
filter and which carries no `EV_ERROR`/`EV_EOF` flag yields an `Event`
with completely empty readiness. -/
theorem coalesce_materializes_all_tokens (aw : Nat) (pe : List Event) (pm : List (Nat × Nat))
    (l : List Kevent) (e e' : Kevent)
    (hmem : e ∈ l) (hne : e.udata ≠ aw)
    (hne' : e'.udata ≠ aw) (hf1 : e'.filter ≠ EVFILT_READ) (hf2 : e'.filter ≠ EVFILT_WRITE)
    (hfl1 : e'.flags &&& EV_ERROR = 0) (hfl2 : e'.flags &&& EV_EOF = 0) :
    e.udata ∈ ((Events.coalesce ⟨l, pe, pm⟩ aw).1.events.map Event.token) ∧
    (Events.coalesce ⟨[e'], pe, pm⟩ aw).1.events =
      [{ kind := Ready.empty, token := e'.udata }] := by
  constructor
  · rcases (runState_inv aw l).mem_tok e hmem hne with ⟨i, hi⟩
    refine List.mem_iff_getElem?.mpr ⟨i, ?_⟩
    rw [List.getElem?_map]
    exact hi
  · have hcon : contrib e' = Ready.empty := by
      unfold contrib
      rw [if_neg (fun h => h hfl1), if_neg hf1, if_neg hf2, if_neg (fun h => h hfl2)]
      rfl
    show (coalesceStep aw { events := [], event_map := [], ret := false } e').events = _
    rw [coalesceStep_none aw { events := [], event_map := [], ret := false } e' hne' rfl]
    simp [hcon]

theorem coalesce_materializes_all_tokens_witness :
    (5 : Nat) ∈ ((Events.coalesce ⟨[⟨3, -7, 0, 0, 0, 5⟩], [], []⟩ 0).1.events.map Event.token) ∧
    (Events.coalesce ⟨[⟨3, -7, 0, 0, 0, 5⟩], [], []⟩ 0).1.events =
      [{ kind := Ready.empty, token := 5 }] :=
  coalesce_materializes_all_tokens 0 [] [] [⟨3, -7, 0, 0, 0, 5⟩] ⟨3, -7, 0, 0, 0, 5⟩
    ⟨3, -7, 0, 0, 0, 5⟩ (by decide) (by decide) (by decide) (by decide) (by decide)
    (by decide) (by decide)

end Mio
